import Mathlib

/-!
Verification of the spyder-remote-services core against its specification.

The development shallowly embeds the two core subsystems:

* the fsspec websocket mixin (`on_message` dispatch, `cat_file`,
  `read_block`, `write_file`, chunked streaming with base64 framing),
  translated from
  `spyder_remote_services/services/fsspec/mixin.py`;
* the kernel process supervisor (`KernelManager`), translated from
  `spyder_remote_server/services/kernel_manager/core.py`.

Files are modelled as lists of byte values, the filesystem as a partial map
from path strings to file contents, and the websocket as an explicit list of
inbound events together with the list of messages the handler attempts to
send.  Machine integers do not overflow in any of the embedded code paths
(Python integers are unbounded), so Nat and Int are used directly.
-/

/-! ## A small model of decoded JSON values (orjson output) -/

/-- JSON values as produced by orjson.loads.  Object fields keep their
textual keys; duplicate keys do not arise in the embedded protocols. -/
inductive Json where
  | null : Json
  | bool (b : Bool) : Json
  | num (n : Int) : Json
  | str (s : String) : Json
  | arr (xs : List Json) : Json
  | obj (fields : List (String × Json)) : Json

/-- Python truthiness of a decoded JSON value: None, False, 0, empty string,
empty list and empty dict are falsy, everything else is truthy. -/
def pyFalsy : Json → Bool
  | .null => true
  | .bool b => !b
  | .num n => n == 0
  | .str s => s.isEmpty
  | .arr xs => xs.isEmpty
  | .obj fs => fs.isEmpty

/-- Model of dict.get on a decoded JSON object: the value of the first field
with the given key, if any. -/
def pyGet (fields : List (String × Json)) (k : String) : Option Json :=
  (fields.find? (fun f => f.1 == k)).map (fun f => f.2)

/-- Rough model of str(value) as used by the f-string building the handler
attribute name: exact only for strings, numbers, booleans and None, which is
all the embedded theorems depend on. -/
def pyStr : Json → String
  | .str s => s
  | .num n => toString n
  | .bool true => "True"
  | .bool false => "False"
  | .null => "None"
  | .arr _ => "list"
  | .obj _ => "dict"

/-! ## Base64 (model of base64.b64encode / base64.b64decode) -/

/-- The standard base64 alphabet, in index order. -/
def b64alphabet : List Char :=
  ['A','B','C','D','E','F','G','H','I','J','K','L','M','N','O','P',
   'Q','R','S','T','U','V','W','X','Y','Z',
   'a','b','c','d','e','f','g','h','i','j','k','l','m','n','o','p',
   'q','r','s','t','u','v','w','x','y','z',
   '0','1','2','3','4','5','6','7','8','9','+','/']

/-- Character for a six-bit group. -/
def b64chr (v : Nat) : Char := b64alphabet.getD v '?'

/-- Index of a character in the base64 alphabet (the length 64 if absent). -/
def b64idx (c : Char) : Nat := b64alphabet.findIdx (fun x => x == c)

/-- Base64-encode a byte list, with padding, as base64.b64encode does. -/
def b64encode : List Nat → List Char
  | a :: b :: c :: rest =>
      b64chr (a / 4) :: b64chr (16 * (a % 4) + b / 16) ::
      b64chr (4 * (b % 16) + c / 64) :: b64chr (c % 64) :: b64encode rest
  | [a, b] =>
      [b64chr (a / 4), b64chr (16 * (a % 4) + b / 16), b64chr (4 * (b % 16)), '=']
  | [a] =>
      [b64chr (a / 4), b64chr (16 * (a % 4)), '=', '=']
  | [] => []

/-- Decode a list of base64 characters four at a time, honouring padding. -/
def b64decodeChars : List Char → List Nat
  | c1 :: c2 :: c3 :: c4 :: rest =>
      if c3 = '=' then
        [4 * b64idx c1 + b64idx c2 / 16]
      else if c4 = '=' then
        [4 * b64idx c1 + b64idx c2 / 16, 16 * (b64idx c2 % 16) + b64idx c3 / 4]
      else
        (4 * b64idx c1 + b64idx c2 / 16) ::
        (16 * (b64idx c2 % 16) + b64idx c3 / 4) ::
        (64 * (b64idx c3 % 4) + b64idx c4) :: b64decodeChars rest
  | _ => []

/-- Characters base64.b64decode (validate=False) keeps: alphabet members and
the padding character; every other character is discarded before decoding. -/
def validB64Char (c : Char) : Bool := b64alphabet.contains c || c == '='

/-- Model of base64.b64decode on text: discard foreign characters, then fail
(binascii.Error) unless the remaining length is a multiple of four. -/
def pyB64decode (s : List Char) : Except Unit (List Nat) :=
  let t := s.filter validB64Char
  if t.length % 4 = 0 then .ok (b64decodeChars t) else .error ()

theorem b64idx_b64chr (v : Nat) (h : v < 64) : b64idx (b64chr v) = v := by
  have : ∀ w : Fin 64, b64idx (b64chr w.val) = w.val := by decide
  exact this ⟨v, h⟩

theorem b64chr_ne_pad (v : Nat) (h : v < 64) : b64chr v ≠ '=' := by
  have : ∀ w : Fin 64, b64chr w.val ≠ '=' := by decide
  exact this ⟨v, h⟩

theorem b64_roundtrip : ∀ l : List Nat, (∀ x ∈ l, x < 256) →
    b64decodeChars (b64encode l) = l
  | [], _ => rfl
  | [a], h => by
    have ha : a < 256 := h a (by simp)
    have h1 : a / 4 < 64 := by omega
    have h2 : 16 * (a % 4) < 64 := by omega
    simp only [b64encode, b64decodeChars, if_pos rfl]
    rw [b64idx_b64chr _ h1, b64idx_b64chr _ h2]
    have e1 : 4 * (a / 4) + 16 * (a % 4) / 16 = a := by omega
    rw [e1]
    simp
  | [a, b], h => by
    have ha : a < 256 := h a (by simp)
    have hb : b < 256 := h b (by simp)
    have h1 : a / 4 < 64 := by omega
    have h2 : 16 * (a % 4) + b / 16 < 64 := by omega
    have h3 : 4 * (b % 16) < 64 := by omega
    simp only [b64encode, b64decodeChars, if_neg (b64chr_ne_pad _ h3), if_pos rfl]
    rw [b64idx_b64chr _ h1, b64idx_b64chr _ h2, b64idx_b64chr _ h3]
    have e1 : 4 * (a / 4) + (16 * (a % 4) + b / 16) / 16 = a := by omega
    have e2 : 16 * ((16 * (a % 4) + b / 16) % 16) + 4 * (b % 16) / 4 = b := by omega
    rw [e1, e2]
    simp
  | a :: b :: c :: rest, h => by
    have ha : a < 256 := h a (by simp)
    have hb : b < 256 := h b (by simp)
    have hc : c < 256 := h c (by simp)
    have h1 : a / 4 < 64 := by omega
    have h2 : 16 * (a % 4) + b / 16 < 64 := by omega
    have h3 : 4 * (b % 16) + c / 64 < 64 := by omega
    have h4 : c % 64 < 64 := by omega
    have ih := b64_roundtrip rest (fun x hx => h x (by simp [hx]))
    simp only [b64encode, b64decodeChars,
      if_neg (b64chr_ne_pad _ h3), if_neg (b64chr_ne_pad _ h4)]
    rw [b64idx_b64chr _ h1, b64idx_b64chr _ h2, b64idx_b64chr _ h3,
      b64idx_b64chr _ h4, ih]
    have e1 : 4 * (a / 4) + (16 * (a % 4) + b / 16) / 16 = a := by omega
    have e2 : 16 * ((16 * (a % 4) + b / 16) % 16) + (4 * (b % 16) + c / 64) / 4 = b := by
      omega
    have e3 : 64 * ((4 * (b % 16) + c / 64) % 4) + c % 64 = c := by omega
    rw [e1, e2, e3]

theorem b64encode_length_mod (l : List Nat) : (b64encode l).length % 4 = 0 := by
  match l with
  | [] => rfl
  | [a] => simp [b64encode]
  | [a, b] => simp [b64encode]
  | a :: b :: c :: rest =>
    have ih := b64encode_length_mod rest
    simp only [b64encode, List.length_cons]
    omega

theorem b64encode_chars_valid (l : List Nat) (h : ∀ x ∈ l, x < 256) :
    ∀ c ∈ b64encode l, validB64Char c = true := by
  have hval : ∀ w : Fin 64, validB64Char (b64chr w.val) = true := by decide
  have hval' : ∀ v : Nat, v < 64 → validB64Char (b64chr v) = true :=
    fun v hv => hval ⟨v, hv⟩
  match l with
  | [] => intro c hc; simp [b64encode] at hc
  | [a] =>
    have ha : a < 256 := h a (by simp)
    intro c hc
    simp only [b64encode, List.mem_cons, List.mem_singleton] at hc
    rcases hc with rfl | rfl | rfl | hc
    · exact hval' _ (by omega)
    · exact hval' _ (by omega)
    · rfl
    · simp at hc; subst hc; rfl
  | [a, b] =>
    have ha : a < 256 := h a (by simp)
    have hb : b < 256 := h b (by simp)
    intro c hc
    simp only [b64encode, List.mem_cons, List.mem_singleton] at hc
    rcases hc with rfl | rfl | rfl | hc
    · exact hval' _ (by omega)
    · exact hval' _ (by omega)
    · exact hval' _ (by omega)
    · simp at hc; subst hc; rfl
  | a :: b :: c0 :: rest =>
    have ha : a < 256 := h a (by simp)
    have hb : b < 256 := h b (by simp)
    have hc0 : c0 < 256 := h c0 (by simp)
    have ih := b64encode_chars_valid rest (fun x hx => h x (by simp [hx]))
    intro c hc
    simp only [b64encode, List.mem_cons] at hc
    rcases hc with rfl | rfl | rfl | rfl | hc
    · exact hval' _ (by omega)
    · exact hval' _ (by omega)
    · exact hval' _ (by omega)
    · exact hval' _ (by omega)
    · exact ih c hc

theorem pyB64decode_b64encode (l : List Nat) (h : ∀ x ∈ l, x < 256) :
    pyB64decode (b64encode l) = .ok l := by
  have hfilter : (b64encode l).filter validB64Char = b64encode l :=
    List.filter_eq_self.mpr (b64encode_chars_valid l h)
  unfold pyB64decode
  simp only [hfilter, b64encode_length_mod l, if_pos]
  exact congrArg Except.ok (b64_roundtrip l h)

/-! ## Outbound messages and chunked streaming
(FSSpecWebSocketMixin, read side) -/

/-- One message the handler attempts to send on the websocket:
a base64 data frame, the end-of-stream marker, an error envelope with an
optional traceback, or the write-completion confirmation. -/
inductive OutMsg where
  | data (payload : List Char) : OutMsg
  | eof : OutMsg
  | err (message : String) (traceback : Option (List String)) : OutMsg
  | writeComplete (path : String) : OutMsg
deriving DecidableEq, Repr

/-- Chunk size used by the streaming loop (CHUNK_SIZE = 2**20, one MiB). -/
def CHUNK_SIZE : Nat := 2 ^ 20

/-- A filesystem restricted to regular files: a path maps to the byte list
of an existing regular file, or to none (missing, directory, or special). -/
abbrev FileMap := String → Option (List Nat)

/-- The read loop of FSSpecWebSocketMixin.stream_file: starting with the
file positioned at pos and remaining bytes to serve, read
min(CHUNK_SIZE, remaining) bytes at a time, stopping early on a short read
at end of file; returns the list of chunks read.  The fuel argument only
bounds the recursion: every iteration reads at least one byte, so fuel =
remaining never runs out. -/
def streamChunksAux (file : List Nat) : Nat → Nat → Nat → List (List Nat)
  | 0, _, _ => []
  | fuel + 1, pos, remaining =>
    if remaining = 0 then []
    else
      let chunk := (file.drop pos).take (min CHUNK_SIZE remaining)
      if chunk.length = 0 then []
      else chunk :: streamChunksAux file fuel (pos + chunk.length)
        (remaining - chunk.length)

/-- The read loop with adequate fuel. -/
def streamChunks (file : List Nat) (pos remaining : Nat) : List (List Nat) :=
  streamChunksAux file remaining pos remaining

/-- FSSpecWebSocketMixin.stream_file: reject an inverted range with an
error message, otherwise send each chunk base64-encoded as a data frame and
finish with a single eof frame. -/
def stream_file (file : List Nat) (start e : Int) : List OutMsg :=
  if e < start then
    [.err ("Invalid range: start=" ++ toString start ++ " > end=" ++ toString e) none]
  else
    (streamChunks file start.toNat (e - start).toNat).map
      (fun c => OutMsg.data (b64encode c)) ++ [.eof]

/-- FSSpecWebSocketMixin.handle_cat_file: on a missing or non-regular path,
send a single error message; otherwise clamp start to at least 0 (treating a
falsy start argument as 0) and end to at most the file size (defaulting to
the file size), then stream the range. -/
def handle_cat_file (fs : FileMap) (path : String)
    (startArg endArg : Option Int) : List OutMsg :=
  match fs path with
  | none => [.err ("File not found or not a file: " ++ path) none]
  | some file =>
    let size : Int := file.length
    let s0 : Int :=
      match startArg with
      | some v => if v == 0 then 0 else v
      | none => 0
    let start : Int := max 0 s0
    let e : Int := min size (match endArg with | some v => v | none => size)
    stream_file file start e

/-- Model of bytes.find(needle, start) scanning from index start upward:
the least index at or after start at which needle is a prefix of the
remaining bytes, if any.  The scan runs to the end of the haystack, so for
a nonempty needle an occurrence must fit entirely inside the haystack.
The fuel argument only bounds the recursion; haystack length + 1 - start
steps always suffice. -/
def bytesFindAux (hay needle : List Nat) : Nat → Nat → Option Nat
  | 0, _ => none
  | fuel + 1, start =>
    if hay.length < start then none
    else if needle.isPrefixOf (hay.drop start) then some start
    else bytesFindAux hay needle fuel (start + 1)

/-- bytes.find with adequate fuel. -/
def bytesFind (hay needle : List Nat) (start : Nat) : Option Nat :=
  bytesFindAux hay needle (hay.length + 1 - start) start

/-- The nominal end of a read_block request: the file size when length is
null, else min(size, offset + length). -/
def read_block_nominal_end (size offset : Int) : Option Int → Int
  | none => size
  | some l => min size (offset + l)

/-- The bytes handle_read_block reads when a delimiter is given:
f.seek(offset) then f.read((end - offset) + 65536), one margin more than
the nominal range; a negative count makes Python read to end of file. -/
def read_block_chunk (file : List Nat) (offset e : Int) : List Nat :=
  if (e - offset) + 65536 < 0 then file.drop offset.toNat
  else (file.drop offset.toNat).take ((e - offset) + 65536).toNat

/-- How a find result moves the end of a read_block request: a hit at
relative index idx moves the end to offset + idx + len(delimiter), a miss
keeps the nominal end. -/
def read_block_found_end (offset : Int) (d : List Nat) (e : Int) :
    Option Nat → Int
  | some idx => offset + idx + d.length
  | none => e

/-- The effective end of a read_block request: without a delimiter the
nominal end; with one, chunk.find(delimiter, -65536) scans the read bytes
from 65536 before their end and the result moves the end as
read_block_found_end describes. -/
def read_block_effective_end (file : List Nat) (offset e : Int) :
    Option (List Nat) → Int
  | none => e
  | some d =>
    read_block_found_end offset d e
      (bytesFind (read_block_chunk file offset e) d
        ((read_block_chunk file offset e).length - 65536))

/-- FSSpecWebSocketMixin.handle_read_block: clamp the offset to at least 0,
compute the nominal end, adjust it by the delimiter search, and stream the
resulting range. -/
def handle_read_block (fs : FileMap) (fn : String) (offsetArg : Int)
    (lengthArg : Option Int) (delimiter : Option (List Nat)) : List OutMsg :=
  match fs fn with
  | none => [.err ("File not found or not a file: " ++ fn) none]
  | some file =>
    stream_file file (max 0 offsetArg)
      (read_block_effective_end file (max 0 offsetArg)
        (read_block_nominal_end file.length (max 0 offsetArg) lengthArg) delimiter)

/-! ## The write_file receive loop (FSSpecWebSocketMixin, write side) -/

/-- One inbound event during the write_file receive loop: either
read_message returned None (the client disconnected), or a raw frame
arrived, paired with its orjson decode result (none when decoding fails). -/
inductive WFEvent where
  | disconnect : WFEvent
  | msg (raw : String) (parsed : Option Json) : WFEvent

/-- How the write_file receive loop ended: an eof message, a client
disconnect, a well-formed truthy message of an unexpected type, or an
exception caught by the surrounding except clause. -/
inductive WFEnd where
  | eof : WFEnd
  | disconnect : WFEnd
  | unexpected : WFEnd
  | exception : WFEnd
deriving DecidableEq, Repr

/-- Model of base64.b64decode applied to the data field of a message:
strings are decoded (possibly failing), any other value raises TypeError. -/
def pyB64decodeJson : Json → Except Unit (List Nat)
  | .str s => pyB64decode s.toList
  | _ => .error ()

/-- The receive loop of FSSpecWebSocketMixin.handle_write_file.  State is
the bytes written to the open handle so far; the result is the final
written bytes, the messages the loop sends, and how it ended.  A missing
event list behaves as a disconnect (read_message yields None once the
connection is gone).  A frame that fails JSON decoding is answered with an
error message and skipped; a frame that decodes to a falsy value is skipped
silently; a data frame is base64-decoded and appended (a decode failure
raises, caught by the except clause which sends an error and leaves the
loop); an eof frame ends the loop; any other truthy value either has an
unexpected type (error, break) or is not a dict, so that msg.get raises
(caught as an exception). -/
def wfLoop : List WFEvent → List Nat → List Nat × List OutMsg × WFEnd
  | [], acc => (acc, [], .disconnect)
  | .disconnect :: _, acc => (acc, [], .disconnect)
  | .msg raw parsed :: rest, acc =>
    match parsed with
    | none =>
      let r := wfLoop rest acc
      (r.1, .err ("Invalid JSON: " ++ raw) none :: r.2.1, r.2.2)
    | some j =>
      if pyFalsy j then wfLoop rest acc
      else
        match j with
        | .obj fields =>
          match pyGet fields "type" with
          | some (.str t) =>
            if t = "data" then
              match (match pyGet fields "data" with
                     | some v => pyB64decodeJson v
                     | none => Except.ok []) with
              | .ok chunk => wfLoop rest (acc ++ chunk)
              | .error _ =>
                (acc, [.err "Error while writing file: base64 decode failed" none],
                 .exception)
            else if t = "eof" then (acc, [], .eof)
            else
              (acc, [.err ("Unexpected message type during write_file: " ++ t) none],
               .unexpected)
          | other =>
            (acc,
             [.err ("Unexpected message type during write_file: " ++
                    (match other with | some v => pyStr v | none => "None")) none],
             .unexpected)
        | _ =>
          (acc, [.err "Error while writing file: not a dict" none], .exception)

/-- Result of handle_write_file: the bytes of the written file when the
handle is closed, every message the handler attempts to send, whether the
handle was closed, and how the receive loop ended. -/
structure WFResult where
  written : List Nat
  sent : List OutMsg
  handleClosed : Bool
  endedBy : WFEnd
deriving DecidableEq, Repr

/-- FSSpecWebSocketMixin.handle_write_file: open the target for truncating
binary write, run the receive loop, close the handle in the finally block
(hence on every path), then send the write_complete confirmation, which in
the code sits after the try/finally and therefore runs unconditionally. -/
def handle_write_file (path : String) (events : List WFEvent) : WFResult :=
  let r := wfLoop events []
  { written := r.1
    sent := r.2.1 ++ [.writeComplete path]
    handleClosed := true
    endedBy := r.2.2 }

/-! ## The stream-transfer dispatcher (FSSpecWebSocketMixin.on_message) -/

/-- Exceptions that escape the dispatcher to the transport layer. -/
inductive PyExc where
  | attributeError : PyExc
deriving DecidableEq, Repr

/-- Outcome of awaiting a handler coroutine: the messages it sent and,
when it raised, the exception message with its formatted traceback. -/
structure DispatchOutcome where
  sent : List OutMsg
  exc : Option (String × List String)

/-- A dispatch table: given the method name and the args and kwargs values
of the envelope, either none (getattr found no handler attribute) or the
outcome of awaiting the handler.  The real table maps exactly cat_file,
read_block and write_file; theorems quantify over arbitrary tables. -/
abbrev Dispatch : Type :=
  String → Json → Json → Option DispatchOutcome

/-- FSSpecWebSocketMixin.on_message: decode failures were already answered
inside decode_json with a single error message, and the decoder returns
None, so the dispatcher returns silently; a falsy decoded message also
returns silently (if not msg), before any field is read; a missing or falsy
method field is answered with one error; an unknown method with one error;
a handler exception is caught and answered with one error carrying the
traceback.  Reading fields of a truthy non-dict value raises AttributeError
out of the dispatcher (msg.get does not exist). -/
def on_message (dispatch : Dispatch) (raw : String) (parsed : Option Json) :
    List OutMsg × Option PyExc :=
  match parsed with
  | none => ([.err ("Invalid JSON: " ++ raw) none], none)
  | some m =>
    if pyFalsy m then ([], none)
    else
      match m with
      | .obj fields =>
        let args := (pyGet fields "args").getD (.arr [])
        let kwargs := (pyGet fields "kwargs").getD (.obj [])
        match pyGet fields "method" with
        | none => ([.err "No method provided." none], none)
        | some mv =>
          if pyFalsy mv then ([.err "No method provided." none], none)
          else
            match dispatch (pyStr mv) args kwargs with
            | none =>
              ([.err ("Unknown or unsupported method: " ++ pyStr mv) none], none)
            | some o =>
              match o.exc with
              | none => (o.sent, none)
              | some (emsg, tb) =>
                (o.sent ++
                 [.err ("Error in method " ++ pyStr mv ++ ": " ++ emsg) (some tb)],
                 none)
      | _ => ([], some .attributeError)

/-! ## Kernel process supervisor (KernelManager) -/

/-- Error taxonomy of the supervisor, naming the exceptions the code
raises: StartupTimeout models the RuntimeError on readiness timeout,
KeyNotFound models the KeyError of a dict lookup or pop on an absent key,
InvalidState models the RuntimeError of constructing a KernelManager
outside of the instance classmethod. -/
inductive KMError where
  | startupTimeout : KMError
  | keyNotFound : KMError
  | invalidState : KMError
deriving DecidableEq, Repr

/-- Handle on one spawned kernel child process; liveness is polled from the
environment, not cached, so only the pid lives in the handle. -/
structure KernelProcess where
  pid : Nat
deriving DecidableEq, Repr

/-- The registry dictionary: insertion-ordered pairs of session key and
process handle, with unique keys, as a Python dict. -/
abbrev KernelDict := List (String × KernelProcess)

/-- Dict lookup. -/
def dictLookup (m : KernelDict) (k : String) : Option KernelProcess :=
  (m.find? (fun kv => kv.1 == k)).map (fun kv => kv.2)

/-- Dict insertion: replace in place when the key exists, append when new. -/
def dictInsert (m : KernelDict) (k : String) (v : KernelProcess) : KernelDict :=
  if m.any (fun kv => kv.1 == k) then
    m.map (fun kv => if kv.1 == k then (k, v) else kv)
  else m ++ [(k, v)]

/-- Dict pop: remove the entry with the given key, keeping the others in
order (the caller checks presence separately via dictLookup). -/
def dictPop (m : KernelDict) (k : String) : KernelDict :=
  m.filter (fun kv => !(kv.1 == k))

/-- Parsed readiness artifact (kernel-pid.json) of a spawned process: the
structured connection metadata, of which the registry reads the session
key field. -/
structure Artifact where
  key : String
  meta : List (String × Json)

/-- Environment of one start_kernel call: the OS pid of the spawned
process, the first 100 ms poll tick at which kernel-pid.json exists in the
runtime directory (none when it never appears), the parsed artifact
content, and whether the process is still alive when the timeout check
fires. -/
structure SpawnEnv where
  pid : Nat
  firstArtifactTick : Option Nat
  artifact : Artifact
  aliveAtTimeout : Bool

/-- Whether the readiness artifact exists at a given poll tick: it exists
from its first appearance tick onward. -/
def artifactExistsAt (firstTick : Option Nat) (k : Nat) : Bool :=
  match firstTick with
  | some j => j ≤ k
  | none => false

/-- The readiness poll loop of KernelManager.start_kernel, on ideal
100 ms ticks: at tick k, first test whether the connection file exists
(success), then whether more than 4 s have elapsed since poll start
(timeout), else sleep 0.1 s and repeat.  Returns the tick at which the
artifact was observed, or none on timeout.  The fuel argument only bounds
the recursion: the timeout test stops the loop at tick 41 at the latest,
so 42 units of fuel from tick 0 never run out. -/
def pollLoopAux (existsAt : Nat → Bool) : Nat → Nat → Option Nat
  | 0, _ => none
  | fuel + 1, k =>
    if existsAt k then some k
    else if 4000 < 100 * k then none
    else pollLoopAux existsAt fuel (k + 1)

/-- The poll loop started at tick 0 with adequate fuel. -/
def pollLoop (existsAt : Nat → Bool) : Option Nat :=
  pollLoopAux existsAt 42 0

/-- Result of one start_kernel call: the returned metadata or the raised
error, the registry afterwards, whether the spawned process is still alive
afterwards, and whether the timeout path called kill on it. -/
structure StartResult where
  outcome : Except KMError Artifact
  kernels : KernelDict
  processAlive : Bool
  killed : Bool

/-- KernelManager.start_kernel: spawn a process, poll the runtime directory
for kernel-pid.json; on timeout kill the process when it is still alive and
raise (RuntimeError, the StartupTimeout of the spec taxonomy), leaving the
registry untouched; on success parse the artifact, insert the key-to-handle
mapping under the self-reported session key and return the metadata. -/
def start_kernel (kernels : KernelDict) (env : SpawnEnv) : StartResult :=
  match pollLoop (artifactExistsAt env.firstArtifactTick) with
  | none =>
    { outcome := .error .startupTimeout
      kernels := kernels
      processAlive := false
      killed := env.aliveAtTimeout }
  | some _ =>
    { outcome := .ok env.artifact
      kernels := dictInsert kernels env.artifact.key ⟨env.pid⟩
      processAlive := true
      killed := false }

/-- Process-lifecycle actions stop_kernel performs on the child process. -/
inductive StopAction where
  | terminateProc (pid : Nat) : StopAction
  | joinProc (pid : Nat) : StopAction
  | killProc (pid : Nat) : StopAction
deriving DecidableEq, Repr

/-- KernelManager.stop_kernel: pop the entry (KeyError when absent, before
any mutation), send terminate, wait for exit in an executor (the join runs
off the calling thread of control), and return whether the process is no
longer alive afterwards.  The aliveAfterJoin argument is the environment's
answer to the final is_alive poll; terminate is never escalated to kill. -/
def stop_kernel (kernels : KernelDict) (k : String) (aliveAfterJoin : Bool) :
    Except KMError Bool × KernelDict × List StopAction :=
  match dictLookup kernels k with
  | none => (.error .keyNotFound, kernels, [])
  | some p =>
    (.ok (!aliveAfterJoin), dictPop kernels k, [.terminateProc p.pid, .joinProc p.pid])

/-- KernelManager.get_kernel_pid: dict lookup (KeyError when absent), then
the pid of the handle. -/
def get_kernel_pid (kernels : KernelDict) (k : String) : Except KMError Nat :=
  match dictLookup kernels k with
  | none => .error .keyNotFound
  | some p => .ok p.pid

/-- KernelManager.list_kernels: the list of registered session keys. -/
def list_kernels (kernels : KernelDict) : List String :=
  kernels.map (fun kv => kv.1)

/-! ## The KernelManager singleton guard -/

/-- KernelManager.__new__ as observed by a direct caller: construction
succeeds only while no instance exists and the call comes from inside the
instance classmethod (the only writer of the inside-instance flag);
otherwise it raises the RuntimeError modelled as InvalidState.  A direct
construction attempt always runs with the flag down. -/
def km_new (instanceExists : Bool) (insideInstance : Bool) :
    Except KMError Unit :=
  if instanceExists = false ∧ insideInstance = true then .ok ()
  else .error .invalidState

/-- Program counter of one thread running KernelManager.instance:
check _instance without the lock, acquire the lock, re-check and possibly
construct, release the lock, read and return _instance, done. -/
inductive SingPc where
  | checkFast : SingPc
  | acquire : SingPc
  | checkSlow : SingPc
  | release : SingPc
  | retInst : SingPc
  | done : SingPc
deriving DecidableEq, Repr

/-- Shared and per-thread state of two threads concurrently calling
KernelManager.instance for the first time.  Constructed objects receive
consecutive identities from nextId, so nextId counts constructions;
lockOwner models the class-level mutex (none when free). -/
structure SingState where
  instOb : Option Nat
  nextId : Nat
  lockOwner : Option Bool
  pc1 : SingPc
  ret1 : Option Nat
  pc2 : SingPc
  ret2 : Option Nat
deriving DecidableEq, Repr

/-- Program counter of the given thread. -/
def SingState.pcOf (s : SingState) (t : Bool) : SingPc :=
  if t then s.pc2 else s.pc1

/-- Replace the program counter of the given thread. -/
def SingState.setPc (s : SingState) (t : Bool) (p : SingPc) : SingState :=
  if t then { s with pc2 := p } else { s with pc1 := p }

/-- Record the return value of the given thread. -/
def SingState.setRet (s : SingState) (t : Bool) (v : Option Nat) : SingState :=
  if t then { s with ret2 := v } else { s with ret1 := v }

/-- One atomic step of thread t running KernelManager.instance.  The fast
path returns the observed instance without locking; acquire blocks (the
state is unchanged) while the other thread holds the mutex; the re-check
under the lock constructs exactly when _instance is still None (the
construction runs with the inside-instance flag raised and is collapsed to
one step, legitimate because it happens under the mutex and the only other
lock-free access just reads _instance once); release opens the mutex; the
final step returns the current _instance. -/
def singStep (s : SingState) (t : Bool) : SingState :=
  match s.pcOf t with
  | .checkFast =>
    match s.instOb with
    | some v => (s.setPc t .done).setRet t (some v)
    | none => s.setPc t .acquire
  | .acquire =>
    match s.lockOwner with
    | none => ({ s with lockOwner := some t } : SingState).setPc t .checkSlow
    | some _ => s
  | .checkSlow =>
    match s.instOb with
    | none =>
      ({ s with instOb := some s.nextId, nextId := s.nextId + 1 } : SingState).setPc
        t .release
    | some _ => s.setPc t .release
  | .release => ({ s with lockOwner := none } : SingState).setPc t .retInst
  | .retInst => (s.setPc t .done).setRet t s.instOb
  | .done => s

/-- Run a schedule: at each entry the named thread takes one step. -/
def singRun (sched : List Bool) (s : SingState) : SingState :=
  sched.foldl singStep s

/-- The initial state: no instance, no constructions, lock free, both
threads about to call instance. -/
def singInit : SingState :=
  { instOb := none, nextId := 0, lockOwner := none
    pc1 := .checkFast, ret1 := none, pc2 := .checkFast, ret2 := none }

/-! ## Atomic-mode file sessions (FileSession) -/

/-- A mutable filesystem: path to current byte content, none when absent. -/
abbrev MutFs := String → Option (List Nat)

/-- Modelled from the spec: the FileSession component (per-connection file
session state machine with lock and atomic modes) is not under src, only
the spec describes it.  The shadow sibling path of a target path used by
atomic-mode sessions. -/
def shadowPath (p : String) : String := p ++ ".spyder.tmp"

/-- Modelled from the spec: opening an atomic-mode write session opens the
underlying handle against the shadow path instead of the real path, so the
shadow file is created empty and the real path is untouched. -/
def atomicOpen (fs : MutFs) (path : String) : MutFs :=
  fun q => if q = shadowPath path then some [] else fs q

/-- Modelled from the spec: a write in an atomic-mode session appends to
the shadow file only. -/
def atomicWrite (fs : MutFs) (path : String) (chunk : List Nat) : MutFs :=
  fun q =>
    if q = shadowPath path then some ((fs (shadowPath path)).getD [] ++ chunk)
    else fs q

/-- Modelled from the spec: an atomic-mode session after open and a
sequence of writes, before any close. -/
def atomicSessionRun (fs : MutFs) (path : String) (chunks : List (List Nat)) :
    MutFs :=
  chunks.foldl (fun acc c => atomicWrite acc path c) (atomicOpen fs path)

/-- Modelled from the spec: clean close of an atomic-mode session commits
by replacing the real path with the shadow file (handle close, then atomic
replace). -/
def atomicCloseClean (fs : MutFs) (path : String) : MutFs :=
  fun q =>
    if q = path then fs (shadowPath path)
    else if q = shadowPath path then none
    else fs q

/-- Modelled from the spec: abnormal close (connection killed mid-write)
runs the same teardown without committing: the shadow file is discarded
(or equivalently orphaned: either way nothing is copied onto the real
path). -/
def atomicCloseAbnormal (fs : MutFs) (path : String) : MutFs :=
  fun q => if q = shadowPath path then none else fs q

/-! ## Helper lemmas: chunked streaming -/

theorem streamChunksAux_spec (file : List Nat) :
    ∀ fuel remaining pos, remaining ≤ fuel → pos + remaining ≤ file.length →
      (streamChunksAux file fuel pos remaining).flatten =
        (file.drop pos).take remaining ∧
      (streamChunksAux file fuel pos remaining).length =
        (remaining + CHUNK_SIZE - 1) / CHUNK_SIZE ∧
      ∀ c ∈ streamChunksAux file fuel pos remaining, c.length ≤ CHUNK_SIZE := by
  have hC : CHUNK_SIZE = 1048576 := by norm_num [CHUNK_SIZE]
  intro fuel
  induction fuel with
  | zero =>
    intro remaining pos hfuel hle
    have h0 : remaining = 0 := by omega
    subst h0
    refine ⟨by simp [streamChunksAux], ?_, by simp [streamChunksAux]⟩
    simp [streamChunksAux, hC]
  | succ fuel ih =>
    intro remaining pos hfuel hle
    by_cases h0 : remaining = 0
    · subst h0
      refine ⟨by simp [streamChunksAux], ?_, by simp [streamChunksAux]⟩
      simp [streamChunksAux, hC]
    · have hdlen : (file.drop pos).length = file.length - pos := by
        simp [List.length_drop]
      have hclen : ((file.drop pos).take (min CHUNK_SIZE remaining)).length =
          min CHUNK_SIZE remaining := by
        rw [List.length_take, hdlen]
        omega
      have hcne : ¬ ((file.drop pos).take (min CHUNK_SIZE remaining)).length = 0 := by
        rw [hclen]
        omega
      rw [streamChunksAux]
      simp only [if_neg h0, if_neg hcne]
      have hfuel2 : remaining - ((file.drop pos).take (min CHUNK_SIZE remaining)).length
          ≤ fuel := by
        rw [hclen]
        omega
      have hle2 : (pos + ((file.drop pos).take (min CHUNK_SIZE remaining)).length) +
          (remaining - ((file.drop pos).take (min CHUNK_SIZE remaining)).length)
          ≤ file.length := by
        rw [hclen]
        omega
      obtain ⟨ihjoin, ihlen, ihbound⟩ := ih _ _ hfuel2 hle2
      simp only [hclen] at ihjoin ihlen ihbound ⊢
      refine ⟨?_, ?_, ?_⟩
      · rw [List.flatten_cons, ihjoin]
        have hdd : file.drop (pos + min CHUNK_SIZE remaining) =
            (file.drop pos).drop (min CHUNK_SIZE remaining) := by
          rw [List.drop_drop, Nat.add_comm]
        rw [hdd, ← List.take_add]
        congr 1
        omega
      · rw [List.length_cons, ihlen, hC]
        omega
      · intro c hc
        rcases List.mem_cons.mp hc with rfl | hc
        · rw [hclen]
          exact Nat.min_le_left _ _
        · exact ihbound c hc

theorem streamChunks_spec (file : List Nat) :
    ∀ remaining pos, pos + remaining ≤ file.length →
      (streamChunks file pos remaining).flatten = (file.drop pos).take remaining ∧
      (streamChunks file pos remaining).length =
        (remaining + CHUNK_SIZE - 1) / CHUNK_SIZE ∧
      ∀ c ∈ streamChunks file pos remaining, c.length ≤ CHUNK_SIZE :=
  fun remaining pos hle =>
    streamChunksAux_spec file remaining remaining pos (Nat.le_refl _) hle

theorem stream_file_spec (file : List Nat) (s e : Int)
    (hs : 0 ≤ s) (hse : s ≤ e) (hef : e.toNat ≤ file.length) :
    ∃ chunks : List (List Nat),
      stream_file file s e =
        chunks.map (fun c => OutMsg.data (b64encode c)) ++ [OutMsg.eof] ∧
      chunks.flatten = (file.drop s.toNat).take (e.toNat - s.toNat) ∧
      chunks.length = ((e.toNat - s.toNat) + CHUNK_SIZE - 1) / CHUNK_SIZE ∧
      ∀ c ∈ chunks, c.length ≤ CHUNK_SIZE := by
  have hrem : (e - s).toNat = e.toNat - s.toNat := by omega
  have hlen : s.toNat + (e - s).toNat ≤ file.length := by omega
  obtain ⟨hjoin, hcount, hbound⟩ := streamChunks_spec file (e - s).toNat s.toNat hlen
  refine ⟨streamChunks file s.toNat (e - s).toNat, ?_, ?_, ?_, hbound⟩
  · rw [stream_file, if_neg (by omega)]
  · rw [← hrem]
    exact hjoin
  · rw [← hrem]
    exact hcount

/-! ## Claim theorems -/

/-- C4: for every existing regular file and every resolved range [start,
end) with start ≤ end (start clamped to at least 0, end to at most the file
size), cat_file emits exactly ceil((end - start) / 2^20) data frames, each
a distinct framed message carrying a base64-encoded chunk of at most 1 MiB,
followed by exactly one eof frame, and concatenating the decoded frame
payloads in order reproduces the bytes in [start, end) exactly; in
particular, a 3 MiB file with default start and end yields
(3 * 2^20 + 2^20 - 1) / 2^20 = 3 data frames. -/
theorem c4_cat_file_chunking
    (fs : FileMap) (path : String) (file : List Nat)
    (startArg endArg : Option Int) (s e : Int)
    (hfs : fs path = some file)
    (hbytes : ∀ x ∈ file, x < 256)
    (hs : s = max 0 (match startArg with
                     | some v => if v == 0 then (0 : Int) else v
                     | none => 0))
    (he : e = min (file.length : Int)
                  (match endArg with | some v => v | none => (file.length : Int)))
    (hse : s ≤ e) :
    ∃ chunks : List (List Nat),
      handle_cat_file fs path startArg endArg =
        chunks.map (fun c => OutMsg.data (b64encode c)) ++ [OutMsg.eof] ∧
      chunks.length = ((e.toNat - s.toNat) + CHUNK_SIZE - 1) / CHUNK_SIZE ∧
      chunks.flatten = (file.drop s.toNat).take (e.toNat - s.toNat) ∧
      ∀ c ∈ chunks, c.length ≤ CHUNK_SIZE ∧
        pyB64decode (b64encode c) = .ok c := by
  have hs0 : 0 ≤ s := by rw [hs]; exact le_max_left _ _
  have hef : e.toNat ≤ file.length := by
    have : e ≤ (file.length : Int) := by rw [he]; exact min_le_left _ _
    omega
  obtain ⟨chunks, hrepr, hjoin, hcount, hbound⟩ :=
    stream_file_spec file s e hs0 hse hef
  have hcall : handle_cat_file fs path startArg endArg = stream_file file s e := by
    rw [handle_cat_file.eq_def, hfs]
    dsimp only
    rw [← hs, ← he]
  refine ⟨chunks, by rw [hcall, hrepr], hcount, hjoin, ?_⟩
  intro c hc
  refine ⟨hbound c hc, ?_⟩
  have hcb : ∀ x ∈ c, x < 256 := by
    intro x hx
    have : x ∈ chunks.flatten := List.mem_flatten.mpr ⟨c, hc, hx⟩
    rw [hjoin] at this
    exact hbytes x (List.mem_of_mem_drop (List.mem_of_mem_take this))
  exact pyB64decode_b64encode c hcb

/-- C4 witness: the chunking theorem applied to a concrete three-byte file
served whole by cat_file with default start and end. -/
theorem c4_cat_file_chunking_witness :
    (∀ x ∈ [104, 105, 106], x < 256) ∧
    ((0 : Int) ≤ 3) ∧
    (∃ chunks : List (List Nat),
      handle_cat_file (fun p => if p = "f" then some [104, 105, 106] else none)
          "f" none none =
        chunks.map (fun c => OutMsg.data (b64encode c)) ++ [OutMsg.eof] ∧
      chunks.length = (((3 : Int).toNat - (0 : Int).toNat) + CHUNK_SIZE - 1) /
        CHUNK_SIZE ∧
      chunks.flatten =
        (([104, 105, 106] : List Nat).drop (0 : Int).toNat).take
          ((3 : Int).toNat - (0 : Int).toNat) ∧
      ∀ c ∈ chunks, c.length ≤ CHUNK_SIZE ∧
        pyB64decode (b64encode c) = .ok c) :=
  ⟨by decide, by decide,
   c4_cat_file_chunking (fun p => if p = "f" then some [104, 105, 106] else none)
     "f" [104, 105, 106] none none 0 3 (by decide) (by decide) (by decide)
     (by decide) (by decide)⟩

theorem bytesFindAux_some_char (hay needle : List Nat) :
    ∀ fuel i j, bytesFindAux hay needle fuel i = some j →
      i ≤ j ∧ j ≤ hay.length ∧ needle.isPrefixOf (hay.drop j) = true ∧
      ∀ k, i ≤ k → k < j → needle.isPrefixOf (hay.drop k) = false := by
  intro fuel
  induction fuel with
  | zero =>
    intro i j h
    exact absurd h (by simp [bytesFindAux])
  | succ fuel ih =>
    intro i j h
    rw [bytesFindAux] at h
    by_cases h1 : hay.length < i
    · rw [if_pos h1] at h
      exact absurd h (by simp)
    · rw [if_neg h1] at h
      by_cases h2 : needle.isPrefixOf (hay.drop i) = true
      · rw [if_pos h2] at h
        have hij : i = j := by
          have := Option.some.inj h
          omega
        subst hij
        exact ⟨Nat.le_refl i, by omega, h2, fun k hk1 hk2 => by omega⟩
      · rw [if_neg h2] at h
        obtain ⟨ih1, ih2, ih3, ih4⟩ := ih (i + 1) j h
        refine ⟨by omega, ih2, ih3, ?_⟩
        intro k hk1 hk2
        rcases Nat.eq_or_lt_of_le hk1 with rfl | hk
        · exact eq_false_of_ne_true h2
        · exact ih4 k (by omega) hk2

theorem bytesFind_some_char (hay needle : List Nat) (i j : Nat)
    (h : bytesFind hay needle i = some j) :
    i ≤ j ∧ j ≤ hay.length ∧ needle.isPrefixOf (hay.drop j) = true ∧
    ∀ k, i ≤ k → k < j → needle.isPrefixOf (hay.drop k) = false :=
  bytesFindAux_some_char hay needle _ i j h

theorem bytesFindAux_none_char (hay needle : List Nat) :
    ∀ fuel i, bytesFindAux hay needle fuel i = none →
      hay.length + 1 ≤ i + fuel →
      ∀ k, i ≤ k → k ≤ hay.length → needle.isPrefixOf (hay.drop k) = false := by
  intro fuel
  induction fuel with
  | zero =>
    intro i _ hfuel k hk1 hk2
    omega
  | succ fuel ih =>
    intro i h hfuel
    rw [bytesFindAux] at h
    by_cases h1 : hay.length < i
    · intro k hk1 hk2
      omega
    · rw [if_neg h1] at h
      by_cases h2 : needle.isPrefixOf (hay.drop i) = true
      · rw [if_pos h2] at h
        exact absurd h (by simp)
      · rw [if_neg h2] at h
        intro k hk1 hk2
        rcases Nat.eq_or_lt_of_le hk1 with rfl | hk
        · exact eq_false_of_ne_true h2
        · exact ih (i + 1) h (by omega) k (by omega) hk2

theorem bytesFind_none_char (hay needle : List Nat) (i : Nat)
    (h : bytesFind hay needle i = none) :
    ∀ k, i ≤ k → k ≤ hay.length → needle.isPrefixOf (hay.drop k) = false := by
  by_cases hbig : hay.length < i
  · intro k hk1 hk2
    omega
  · exact bytesFindAux_none_char hay needle _ i h (by omega)

theorem prefix_nonempty_lt_length (hay needle : List Nat) (j : Nat)
    (hne : needle ≠ [])
    (hpref : needle.isPrefixOf (hay.drop j) = true) : j < hay.length := by
  have hp := List.isPrefixOf_iff_prefix.mp hpref
  have hlen := hp.length_le
  have hne' : 0 < needle.length := List.length_pos.mpr hne
  rw [List.length_drop] at hlen
  omega

theorem bytesFind_complete (hay needle : List Nat) (i j : Nat)
    (hne : needle ≠ []) (hij : i ≤ j)
    (hpref : needle.isPrefixOf (hay.drop j) = true)
    (hleast : ∀ k, i ≤ k → k < j → needle.isPrefixOf (hay.drop k) = false) :
    bytesFind hay needle i = some j := by
  match hfind : bytesFind hay needle i with
  | none =>
    have := bytesFind_none_char hay needle i hfind j hij
      (Nat.le_of_lt (prefix_nonempty_lt_length hay needle j hne hpref))
    rw [hpref] at this
    exact absurd this (by simp)
  | some j' =>
    obtain ⟨hj1, hj2, hj3, hj4⟩ := bytesFind_some_char hay needle i j' hfind
    have : j' = j := by
      rcases Nat.lt_trichotomy j' j with hlt | heq | hgt
      · have := hleast j' hj1 hlt
        rw [hj3] at this
        exact absurd this (by simp)
      · exact heq
      · have := hj4 j hij hgt
        rw [hpref] at this
        exact absurd this (by simp)
    rw [this]

theorem handle_read_block_some (fs : FileMap) (fn : String) (file : List Nat)
    (offsetArg : Int) (lengthArg : Option Int) (delimiter : Option (List Nat))
    (hfs : fs fn = some file) :
    handle_read_block fs fn offsetArg lengthArg delimiter =
      stream_file file (max 0 offsetArg)
        (read_block_effective_end file (max 0 offsetArg)
          (read_block_nominal_end file.length (max 0 offsetArg) lengthArg)
          delimiter) := by
  rw [handle_read_block.eq_def, hfs]

/-- The margin chunk in file coordinates: what read_block reads with a
nonnegative offset at most the file size and length L. -/
def rbChunkN (file : List Nat) (o L : Nat) : List Nat :=
  (file.drop o).take (min file.length (o + L) - o + 65536)

/-- Start position of the delimiter scan inside the margin chunk
(bytes.find with start -65536 clamps to length - 65536). -/
def rbWin (file : List Nat) (o L : Nat) : Nat :=
  (rbChunkN file o L).length - 65536

theorem read_block_chunk_eq (file : List Nat) (o L : Nat) (ho : o ≤ file.length) :
    read_block_chunk file (o : Int) ((min file.length (o + L) : Nat) : Int) =
      rbChunkN file o L := by
  rw [read_block_chunk, if_neg (by omega)]
  have h1 : ((o : Int)).toNat = o := by omega
  have h2 : ((((min file.length (o + L) : Nat) : Int) - (o : Int)) + 65536).toNat =
      min file.length (o + L) - o + 65536 := by omega
  rw [h1, h2, rbChunkN]

theorem read_block_nominal_eq (file : List Nat) (o L : Nat) :
    read_block_nominal_end file.length (o : Int) (some (L : Int)) =
      ((min file.length (o + L) : Nat) : Int) := by
  rw [read_block_nominal_end, Nat.cast_min]
  push_cast
  ring

theorem read_block_effective_end_eval (file : List Nat) (offset e : Int)
    (d : List Nat) (r : Option Nat)
    (hr : bytesFind (read_block_chunk file offset e) d
          ((read_block_chunk file offset e).length - 65536) = r) :
    read_block_effective_end file offset e (some d) =
      read_block_found_end offset d e r := by
  rw [read_block_effective_end]
  rw [hr]

/-- C2 (amended): for read_block with a nonnull, nonempty delimiter on an
existing regular file (offset within the file, nominal end
min(size, offset + length)), the code scans the final 64 KiB of the bytes
it read, which start at the offset and extend 64 KiB past the nominal
end; the scan window therefore starts at the nominal end only when the
file extends at least 64 KiB beyond it, and otherwise reaches back before
the nominal end.  If the window contains no delimiter occurrence the
nominal end is used unmodified; if it does, the effective end is just past
the FIRST occurrence in the window (not the last), which can be strictly
smaller than the nominal end when the file ends within 64 KiB of it.  When
the full margin lies inside the file, the window starts exactly at the
nominal end and the effective end never falls below it. -/
theorem c2_read_block_margin_amended
    (fs : FileMap) (fn : String) (file : List Nat) (o L : Nat) (d : List Nat)
    (hfs : fs fn = some file) (hd : d ≠ []) (ho : o ≤ file.length) :
    ((∀ k, rbWin file o L ≤ k → d.isPrefixOf ((rbChunkN file o L).drop k) = false) →
      handle_read_block fs fn (o : Int) (some (L : Int)) (some d) =
        stream_file file (o : Int) ((min file.length (o + L) : Nat) : Int)) ∧
    (∀ j, rbWin file o L ≤ j → d.isPrefixOf ((rbChunkN file o L).drop j) = true →
      (∀ k, rbWin file o L ≤ k → k < j →
        d.isPrefixOf ((rbChunkN file o L).drop k) = false) →
      handle_read_block fs fn (o : Int) (some (L : Int)) (some d) =
        stream_file file (o : Int) ((o + j + d.length : Nat) : Int)) ∧
    (min file.length (o + L) + 65536 ≤ file.length →
      rbWin file o L = min file.length (o + L) - o ∧
      ∀ j, rbWin file o L ≤ j →
        min file.length (o + L) ≤ o + j + d.length) := by
  have hmax : max 0 (o : Int) = (o : Int) := by omega
  have hbase := handle_read_block_some fs fn file (o : Int) (some (L : Int))
    (some d) hfs
  rw [hmax, read_block_nominal_eq file o L] at hbase
  have hchunk := read_block_chunk_eq file o L ho
  refine ⟨?_, ?_, ?_⟩
  · intro hnone
    have hfd : bytesFind
        (read_block_chunk file (o : Int) ((min file.length (o + L) : Nat) : Int)) d
        ((read_block_chunk file (o : Int)
          ((min file.length (o + L) : Nat) : Int)).length - 65536) = none := by
      rw [hchunk]
      match hfind : bytesFind (rbChunkN file o L) d
          ((rbChunkN file o L).length - 65536) with
      | some j =>
        obtain ⟨hj1, _, hj3, _⟩ := bytesFind_some_char _ _ _ _ hfind
        have := hnone j (by rw [rbWin]; exact hj1)
        rw [hj3] at this
        exact absurd this (by simp)
      | none => rfl
    rw [hbase, read_block_effective_end_eval file _ _ d none hfd,
      read_block_found_end]
  · intro j hj hpref hleast
    rw [rbWin] at hj hleast
    have hfind : bytesFind (rbChunkN file o L) d
        ((rbChunkN file o L).length - 65536) = some j :=
      bytesFind_complete _ _ _ _ hd hj hpref hleast
    have hfd : bytesFind
        (read_block_chunk file (o : Int) ((min file.length (o + L) : Nat) : Int)) d
        ((read_block_chunk file (o : Int)
          ((min file.length (o + L) : Nat) : Int)).length - 65536) = some j := by
      rw [hchunk]
      exact hfind
    rw [hbase, read_block_effective_end_eval file _ _ d (some j) hfd,
      read_block_found_end]
    congr 1
  · intro hfull
    have hlen : (rbChunkN file o L).length = min file.length (o + L) - o + 65536 := by
      rw [rbChunkN, List.length_take, List.length_drop]
      omega
    have hwin : rbWin file o L = min file.length (o + L) - o := by
      rw [rbWin, hlen]
      omega
    exact ⟨hwin, fun j hj => by rw [hwin] at hj; omega⟩

/-- C2 counterexample: read_block on the 8-byte file "ab\ncd\nef" at offset
0 with length 4 and delimiter "\n".  The nominal end is min(8, 0+4) = 4 and
the margin after it contains the delimiter (at absolute index 5), so the
claim requires the effective end to be past the last margin occurrence
(6) and never below the nominal end (4).  The code instead returns the
bytes [0, 3): base64 "YWIK" = "ab\n", because chunk.find(delimiter, -65536)
scans from max(0, len(chunk) - 65536) = 0, before the nominal end, and
takes the FIRST hit (absolute index 2). -/
theorem c2_read_block_counterexample :
    handle_read_block
        (fun p => if p = "f" then some [97, 98, 10, 99, 100, 10, 101, 102] else none)
        "f" 0 (some 4) (some [10]) =
      [OutMsg.data ['Y', 'W', 'I', 'K'], OutMsg.eof] ∧
    b64decodeChars ['Y', 'W', 'I', 'K'] = [97, 98, 10] ∧
    ([10] : List Nat).isPrefixOf
      (([97, 98, 10, 99, 100, 10, 101, 102] : List Nat).drop 5) = true ∧
    (3 : Nat) < min 8 (0 + 4) := by
  decide

/-- C2 witness: the amended margin theorem applied to the 5-byte file
"ab\ncd" with offset 0, length 2 and delimiter "\n": the window starts at
0 and the first occurrence sits at index 2, so the effective end is
0 + 2 + 1 = 3. -/
theorem c2_read_block_margin_amended_witness :
    handle_read_block
        (fun p => if p = "f" then some [97, 98, 10, 99, 100] else none)
        "f" ((0 : Nat) : Int) (some ((2 : Nat) : Int)) (some [10]) =
      stream_file [97, 98, 10, 99, 100] ((0 : Nat) : Int)
        ((0 + 2 + 1 : Nat) : Int) := by
  have h := c2_read_block_margin_amended
    (fun p => if p = "f" then some [97, 98, 10, 99, 100] else none)
    "f" [97, 98, 10, 99, 100] 0 2 [10] (by decide) (by decide) (by decide)
  refine h.2.1 2 (by decide) (by decide) ?_
  intro k hk1 hk2
  match k with
  | 0 => decide
  | 1 => decide

/-- Recognizer for the write-completion confirmation message. -/
def isWriteComplete : OutMsg → Bool
  | .writeComplete _ => true
  | _ => false

theorem wfLoop_sent_no_writeComplete (events : List WFEvent) :
    ∀ acc, ((wfLoop events acc).2.1).countP isWriteComplete = 0 := by
  induction events with
  | nil =>
    intro acc
    simp [wfLoop]
  | cons ev rest ih =>
    intro acc
    cases ev with
    | disconnect => simp [wfLoop]
    | msg raw parsed =>
      rw [wfLoop.eq_def]
      cases parsed with
      | none =>
        simp only [List.countP_cons, isWriteComplete]
        simpa using ih acc
      | some j =>
        by_cases hf : pyFalsy j
        · simp only [hf, if_true]
          exact ih acc
        · simp only [hf, Bool.false_eq_true, if_false]
          rcases j with _ | b | n | st | xs | fields
          · simp [pyFalsy] at hf
          · simp [List.countP_cons, isWriteComplete]
          · simp [List.countP_cons, isWriteComplete]
          · simp [List.countP_cons, isWriteComplete]
          · simp [List.countP_cons, isWriteComplete]
          · dsimp only
            split
            · split
              · split
                · exact ih _
                · simp [List.countP_cons, isWriteComplete]
              · split
                · simp
                · simp [List.countP_cons, isWriteComplete]
            · simp [List.countP_cons, isWriteComplete]

/-- C3 counterexample: a write_file session whose only inbound frame is a
well-formed message of the unexpected type "bogus".  The receive loop ends
on the protocol-violation path, not on the eof path, yet the code still
sends the write_complete confirmation, because the confirmation sits after
the try/finally and runs on every loop outcome. -/
theorem c3_write_complete_counterexample :
    (handle_write_file "p"
        [WFEvent.msg "m" (some (Json.obj [("type", Json.str "bogus")]))]).endedBy =
      WFEnd.unexpected ∧
    OutMsg.writeComplete "p" ∈
      (handle_write_file "p"
        [WFEvent.msg "m" (some (Json.obj [("type", Json.str "bogus")]))]).sent := by
  decide

/-- C3 (amended): after the write_file receive loop completes, the
underlying handle is always closed (the close sits in a finally block), on
success and failure alike; and the write_complete confirmation is attempted
unconditionally after the loop — on the eof path, but also after a client
disconnect, a protocol violation, and a caught exception — as exactly the
last message of the session, and never from inside the loop. -/
theorem c3_write_file_close_and_complete_amended
    (path : String) (events : List WFEvent) :
    (handle_write_file path events).handleClosed = true ∧
    (handle_write_file path events).sent.getLast? =
      some (OutMsg.writeComplete path) ∧
    (handle_write_file path events).sent.countP isWriteComplete = 1 := by
  refine ⟨rfl, ?_, ?_⟩
  · show ((wfLoop events []).2.1 ++ [OutMsg.writeComplete path]).getLast? =
      some (OutMsg.writeComplete path)
    rw [List.getLast?_concat]
  · show ((wfLoop events []).2.1 ++ [OutMsg.writeComplete path]).countP
      isWriteComplete = 1
    rw [List.countP_append, wfLoop_sent_no_writeComplete events []]
    simp [isWriteComplete]

/-- C10 counterexample: a write_file session whose first frame is
well-formed, truthy and of the expected type "data", but whose payload "a"
is not valid base64.  The claim allows the loop to end only on a
well-formed message of an unexpected type, an eof message, or a client
disconnect; the code instead leaves the loop through the except clause
(base64.b64decode raises binascii.Error), so the following data and eof
frames are never consumed and nothing is written. -/
theorem c10_write_loop_counterexample :
    (handle_write_file "p"
        [WFEvent.msg "m1" (some (Json.obj
            [("type", Json.str "data"), ("data", Json.str "a")])),
         WFEvent.msg "m2" (some (Json.obj
            [("type", Json.str "data"), ("data", Json.str "QQ==")])),
         WFEvent.msg "m3" (some (Json.obj [("type", Json.str "eof")]))]).endedBy =
      WFEnd.exception ∧
    (handle_write_file "p"
        [WFEvent.msg "m1" (some (Json.obj
            [("type", Json.str "data"), ("data", Json.str "a")])),
         WFEvent.msg "m2" (some (Json.obj
            [("type", Json.str "data"), ("data", Json.str "QQ==")])),
         WFEvent.msg "m3" (some (Json.obj [("type", Json.str "eof")]))]).written =
      [] ∧
    (match pyGet [("type", Json.str "data"), ("data", Json.str "a")] "type" with
     | some (Json.str t) => t
     | _ => "") = "data" ∧
    pyFalsy (Json.obj [("type", Json.str "data"), ("data", Json.str "a")]) =
      false := by
  decide

/-- C10 (amended): during the write_file receive loop, a framed message
that fails JSON decoding is answered with an error message and skipped,
with all bytes written so far retained and the loop continuing; a
well-formed message that decodes to a falsy value (such as the empty
object) is skipped silently; a data message with decodable payload appends
its bytes and continues.  The loop ends on a client disconnect, on an eof
message, on a truthy object of an unexpected type (with an error message),
and additionally — beyond what the original claim allows — through the
except clause when handling a message raises, e.g. a data message whose
payload fails base64 decoding. -/
theorem c10_write_loop_amended :
    (∀ raw rest acc,
      wfLoop (WFEvent.msg raw none :: rest) acc =
        ((wfLoop rest acc).1,
         OutMsg.err ("Invalid JSON: " ++ raw) none :: (wfLoop rest acc).2.1,
         (wfLoop rest acc).2.2)) ∧
    (∀ raw j rest acc, pyFalsy j = true →
      wfLoop (WFEvent.msg raw (some j) :: rest) acc = wfLoop rest acc) ∧
    (∀ rest acc,
      wfLoop (WFEvent.disconnect :: rest) acc = (acc, [], WFEnd.disconnect)) ∧
    (∀ raw fields rest acc chunk, pyFalsy (Json.obj fields) = false →
      pyGet fields "type" = some (Json.str "data") →
      (match pyGet fields "data" with
       | some v => pyB64decodeJson v
       | none => Except.ok []) = Except.ok chunk →
      wfLoop (WFEvent.msg raw (some (Json.obj fields)) :: rest) acc =
        wfLoop rest (acc ++ chunk)) ∧
    (∀ raw fields rest acc, pyFalsy (Json.obj fields) = false →
      pyGet fields "type" = some (Json.str "eof") →
      wfLoop (WFEvent.msg raw (some (Json.obj fields)) :: rest) acc =
        (acc, [], WFEnd.eof)) ∧
    (∀ raw fields rest acc t, pyFalsy (Json.obj fields) = false →
      pyGet fields "type" = some (Json.str t) → t ≠ "data" → t ≠ "eof" →
      wfLoop (WFEvent.msg raw (some (Json.obj fields)) :: rest) acc =
        (acc, [.err ("Unexpected message type during write_file: " ++ t) none],
         WFEnd.unexpected)) ∧
    (∀ raw fields rest acc, pyFalsy (Json.obj fields) = false →
      pyGet fields "type" = some (Json.str "data") →
      (match pyGet fields "data" with
       | some v => pyB64decodeJson v
       | none => Except.ok []) = Except.error () →
      wfLoop (WFEvent.msg raw (some (Json.obj fields)) :: rest) acc =
        (acc, [.err "Error while writing file: base64 decode failed" none],
         WFEnd.exception)) := by
  refine ⟨?_, ?_, ?_, ?_, ?_, ?_, ?_⟩
  · intro raw rest acc
    rfl
  · intro raw j rest acc hf
    rw [wfLoop.eq_def]
    simp [hf]
  · intro rest acc
    rfl
  · intro raw fields rest acc chunk hf hty hdec
    rw [wfLoop.eq_def]
    simp [hf, hty, hdec]
  · intro raw fields rest acc hf hty
    rw [wfLoop.eq_def]
    simp [hf, hty]
  · intro raw fields rest acc t hf hty htd hte
    rw [wfLoop.eq_def]
    simp [hf, hty, htd, hte]
  · intro raw fields rest acc hf hty hdec
    rw [wfLoop.eq_def]
    simp [hf, hty, hdec]

/-- C10 witness: the amended loop theorem applied to one concrete
well-formed data frame carrying base64 "QQ==", which appends byte 65 and
continues the loop. -/
theorem c10_write_loop_amended_witness :
    wfLoop [WFEvent.msg "m" (some (Json.obj
        [("type", Json.str "data"), ("data", Json.str "QQ==")]))] [] =
      wfLoop [] ([] ++ [65]) :=
  c10_write_loop_amended.2.2.2.1 "m"
    [("type", Json.str "data"), ("data", Json.str "QQ==")] [] [] [65]
    rfl rfl rfl

/-- Recognizer for error envelopes among outbound messages. -/
def isErrMsg : OutMsg → Bool
  | .err _ _ => true
  | _ => false

/-- C8 counterexample: a raw message that decodes to the empty JSON
object, which has no method field; the claim requires exactly one error
envelope, but since the empty dict is falsy, the dispatcher returns at
the `if not msg` check before any field is read, sending nothing at all
(and the empty object indeed has no method field). -/
theorem c8_dispatch_counterexample :
    on_message (fun _ _ _ => none) "emptyobj" (some (Json.obj [])) = ([], none) ∧
    (on_message (fun _ _ _ => none) "emptyobj" (some (Json.obj []))).1.countP
      isErrMsg = 0 ∧
    (pyGet ([] : List (String × Json)) "method").isNone = true := by
  refine ⟨rfl, rfl, rfl⟩

/-- C8 (amended): for every inbound raw message that fails JSON decoding or
decodes to a JSON object, the dispatcher never raises to the transport
layer.  Malformed JSON yields exactly one error envelope; an object that
decodes to the empty (falsy) dict is silently ignored with no envelope
before any field is read; a non-empty object with a missing or falsy
method field, and an unknown method name, each yield exactly one error
envelope; an exception thrown inside a handler yields exactly one error
envelope carrying a message and traceback detail, after whatever the
handler already sent; a successful handler call sends exactly what the
handler sent.  In every case the channel remains usable (the dispatcher
returns instead of raising). -/
theorem c8_dispatch_amended (dispatch : Dispatch) :
    (∀ raw, on_message dispatch raw none =
      ([.err ("Invalid JSON: " ++ raw) none], none)) ∧
    (∀ raw fields, (on_message dispatch raw (some (.obj fields))).2 = none) ∧
    (∀ raw, on_message dispatch raw (some (.obj [])) = ([], none)) ∧
    (∀ raw fields, pyFalsy (Json.obj fields) = false →
      pyGet fields "method" = none →
      on_message dispatch raw (some (.obj fields)) =
        ([.err "No method provided." none], none)) ∧
    (∀ raw fields mv, pyFalsy (Json.obj fields) = false →
      pyGet fields "method" = some mv → pyFalsy mv = true →
      on_message dispatch raw (some (.obj fields)) =
        ([.err "No method provided." none], none)) ∧
    (∀ raw fields mv, pyFalsy (Json.obj fields) = false →
      pyGet fields "method" = some mv → pyFalsy mv = false →
      dispatch (pyStr mv) ((pyGet fields "args").getD (.arr []))
        ((pyGet fields "kwargs").getD (.obj [])) = none →
      on_message dispatch raw (some (.obj fields)) =
        ([.err ("Unknown or unsupported method: " ++ pyStr mv) none], none)) ∧
    (∀ raw fields mv sent, pyFalsy (Json.obj fields) = false →
      pyGet fields "method" = some mv → pyFalsy mv = false →
      dispatch (pyStr mv) ((pyGet fields "args").getD (.arr []))
        ((pyGet fields "kwargs").getD (.obj [])) = some ⟨sent, none⟩ →
      on_message dispatch raw (some (.obj fields)) = (sent, none)) ∧
    (∀ raw fields mv sent emsg tb, pyFalsy (Json.obj fields) = false →
      pyGet fields "method" = some mv → pyFalsy mv = false →
      dispatch (pyStr mv) ((pyGet fields "args").getD (.arr []))
        ((pyGet fields "kwargs").getD (.obj [])) = some ⟨sent, some (emsg, tb)⟩ →
      on_message dispatch raw (some (.obj fields)) =
        (sent ++
         [.err ("Error in method " ++ pyStr mv ++ ": " ++ emsg) (some tb)],
         none)) := by
  refine ⟨?_, ?_, ?_, ?_, ?_, ?_, ?_, ?_⟩
  · intro raw
    rfl
  · intro raw fields
    rw [on_message.eq_def]
    dsimp only
    repeat' split
    all_goals rfl
  · intro raw
    rfl
  · intro raw fields hf hm
    rw [on_message.eq_def]
    dsimp only
    rw [hf, hm]
    simp
  · intro raw fields mv hf hm hmv
    rw [on_message.eq_def]
    dsimp only
    rw [hf, hm]
    simp [hmv]
  · intro raw fields mv hf hm hmv hdisp
    rw [on_message.eq_def]
    dsimp only
    rw [hf, hm]
    simp [hmv, hdisp]
  · intro raw fields mv sent hf hm hmv hdisp
    rw [on_message.eq_def]
    dsimp only
    rw [hf, hm]
    simp [hmv, hdisp]
  · intro raw fields mv sent emsg tb hf hm hmv hdisp
    rw [on_message.eq_def]
    dsimp only
    rw [hf, hm]
    simp [hmv, hdisp]

/-- C8 witness: the amended dispatcher theorem applied to a concrete
envelope naming an unknown method, against the empty dispatch table. -/
theorem c8_dispatch_amended_witness :
    on_message (fun _ _ _ => none) "m"
        (some (Json.obj [("method", Json.str "frobnicate")])) =
      ([OutMsg.err ("Unknown or unsupported method: " ++
          pyStr (Json.str "frobnicate")) none], none) :=
  (c8_dispatch_amended (fun _ _ _ => none)).2.2.2.2.2.1 "m"
    [("method", Json.str "frobnicate")] (Json.str "frobnicate")
    rfl rfl rfl rfl

theorem dictLookup_any_false (m : KernelDict) (k : String)
    (h : dictLookup m k = none) : m.any (fun kv => kv.1 == k) = false := by
  induction m with
  | nil => rfl
  | cons kv rest ih =>
    rw [dictLookup, List.find?_cons] at h
    by_cases hk : (kv.1 == k) = true
    · rw [hk] at h
      simp at h
    · rw [Bool.not_eq_true] at hk
      rw [hk] at h
      simp only [List.any_cons, hk, Bool.false_or]
      exact ih (by rw [dictLookup]; exact h)

theorem dictLookup_append_self (m : KernelDict) (k : String) (v : KernelProcess)
    (h : dictLookup m k = none) :
    dictLookup (m ++ [(k, v)]) k = some v := by
  induction m with
  | nil => simp [dictLookup, List.find?_cons]
  | cons kv rest ih =>
    rw [dictLookup, List.find?_cons] at h
    by_cases hk : (kv.1 == k) = true
    · rw [hk] at h
      simp at h
    · rw [Bool.not_eq_true] at hk
      rw [hk] at h
      rw [List.cons_append, dictLookup, List.find?_cons, hk]
      exact ih (by rw [dictLookup]; exact h)

theorem dictInsert_fresh (m : KernelDict) (k : String) (v : KernelProcess)
    (h : dictLookup m k = none) : dictInsert m k v = m ++ [(k, v)] := by
  rw [dictInsert, dictLookup_any_false m k h]
  simp

theorem dictPop_lookup_self (m : KernelDict) (k : String) :
    dictLookup (dictPop m k) k = none := by
  induction m with
  | nil => rfl
  | cons kv rest ih =>
    rw [dictPop, List.filter_cons]
    by_cases hk : (kv.1 == k) = true
    · simp only [hk, Bool.not_true, Bool.false_eq_true, if_false]
      exact ih
    · rw [Bool.not_eq_true] at hk
      simp only [hk, Bool.not_false, if_true]
      rw [dictLookup, List.find?_cons, hk]
      exact ih

theorem dictPop_lookup_ne (m : KernelDict) (k k2 : String) (h : k2 ≠ k) :
    dictLookup (dictPop m k) k2 = dictLookup m k2 := by
  simp only [dictLookup, dictPop]
  induction m with
  | nil => rfl
  | cons kv rest ih =>
    rw [List.filter_cons, List.find?_cons]
    by_cases hk : (kv.1 == k) = true
    · have hk2 : (kv.1 == k2) = false := by
        rw [beq_iff_eq] at hk
        rw [Bool.eq_false_iff]
        intro hc
        rw [beq_iff_eq] at hc
        exact h (by rw [← hc, hk])
      simp only [hk, Bool.not_true, Bool.false_eq_true, if_false, hk2]
      exact ih
    · rw [Bool.not_eq_true] at hk
      simp only [hk, Bool.not_false, if_true, List.find?_cons]
      by_cases hk2 : (kv.1 == k2) = true
      · rw [hk2]
      · rw [Bool.not_eq_true] at hk2
        rw [hk2]
        exact ih

theorem pollLoopAux_timeout (existsAt : Nat → Bool) :
    ∀ fuel k, (∀ j, k ≤ j → j ≤ 41 → existsAt j = false) → k ≤ 41 →
      pollLoopAux existsAt fuel k = none := by
  intro fuel
  induction fuel with
  | zero =>
    intro k _ _
    rfl
  | succ fuel ih =>
    intro k hnone hk
    rw [pollLoopAux, hnone k (Nat.le_refl k) hk]
    simp only [Bool.false_eq_true, if_false]
    by_cases h40 : 4000 < 100 * k
    · rw [if_pos h40]
    · rw [if_neg h40]
      exact ih (k + 1) (fun j hj1 hj2 => hnone j (by omega) hj2) (by omega)

theorem pollLoopAux_success (j0 : Nat) :
    ∀ fuel k, k ≤ j0 → j0 ≤ 41 → j0 < k + fuel →
      pollLoopAux (artifactExistsAt (some j0)) fuel k = some j0 := by
  intro fuel
  induction fuel with
  | zero =>
    intro k hk _ hfuel
    omega
  | succ fuel ih =>
    intro k hk h41 hfuel
    rw [pollLoopAux]
    by_cases hje : j0 ≤ k
    · have hkj : k = j0 := by omega
      have he : artifactExistsAt (some j0) k = true := by
        simp [artifactExistsAt, hje]
      rw [he]
      simp [hkj]
    · have he : artifactExistsAt (some j0) k = false := by
        simp [artifactExistsAt]
        omega
      rw [he]
      simp only [Bool.false_eq_true, if_false]
      rw [if_neg (by omega)]
      exact ih (k + 1) (by omega) h41 (by omega)

/-- C5: when no readiness artifact named kernel-pid.json appears within the
4 s timeout polled at 100 ms ticks from poll start, start_kernel fails with
the StartupTimeout error (the RuntimeError of the code), leaves the
registry unchanged with zero new entries, and leaves no live spawned
process: the process is force-killed exactly when it was still alive at
the timeout check, and is not alive afterwards either way. -/
theorem c5_start_kernel_timeout (kernels : KernelDict) (env : SpawnEnv)
    (hnone : ∀ j, j ≤ 41 → artifactExistsAt env.firstArtifactTick j = false) :
    (start_kernel kernels env).outcome = Except.error KMError.startupTimeout ∧
    (start_kernel kernels env).kernels = kernels ∧
    (start_kernel kernels env).processAlive = false ∧
    (start_kernel kernels env).killed = env.aliveAtTimeout := by
  have hpoll : pollLoop (artifactExistsAt env.firstArtifactTick) = none :=
    pollLoopAux_timeout _ 42 0 (fun j _ hj => hnone j hj) (by omega)
  have hsk : start_kernel kernels env =
      { outcome := Except.error KMError.startupTimeout, kernels := kernels,
        processAlive := false, killed := env.aliveAtTimeout } := by
    rw [start_kernel.eq_def, hpoll]
  rw [hsk]
  exact ⟨rfl, rfl, rfl, rfl⟩

/-- C5 witness: the timeout theorem applied to a concrete environment
whose artifact never appears, with an empty registry and a process still
alive at the timeout check. -/
theorem c5_start_kernel_timeout_witness :
    (start_kernel [] ⟨77, none, ⟨"key1", []⟩, true⟩).outcome =
      Except.error KMError.startupTimeout ∧
    (start_kernel [] ⟨77, none, ⟨"key1", []⟩, true⟩).kernels = [] ∧
    (start_kernel [] ⟨77, none, ⟨"key1", []⟩, true⟩).processAlive = false ∧
    (start_kernel [] ⟨77, none, ⟨"key1", []⟩, true⟩).killed = true :=
  c5_start_kernel_timeout [] ⟨77, none, ⟨"key1", []⟩, true⟩ (fun _ _ => rfl)

/-- C6: after a successful start_kernel call (the readiness artifact
appears within the poll window, under a session key not already present),
exactly one new registry entry exists: the registry is the old one plus a
single appended entry keyed by the session key read from the spawned
process artifact and mapped to the spawned process handle; the full parsed
artifact metadata is returned, and get_kernel_pid on that key returns the
OS pid of the spawned process. -/
theorem c6_start_kernel_success (kernels : KernelDict) (env : SpawnEnv)
    (j0 : Nat) (htick : env.firstArtifactTick = some j0) (h41 : j0 ≤ 41)
    (hfresh : dictLookup kernels env.artifact.key = none) :
    (start_kernel kernels env).outcome = Except.ok env.artifact ∧
    (start_kernel kernels env).kernels =
      kernels ++ [(env.artifact.key, ⟨env.pid⟩)] ∧
    get_kernel_pid (start_kernel kernels env).kernels env.artifact.key =
      Except.ok env.pid ∧
    list_kernels (start_kernel kernels env).kernels =
      list_kernels kernels ++ [env.artifact.key] := by
  have hpoll : pollLoop (artifactExistsAt env.firstArtifactTick) = some j0 := by
    rw [htick]
    exact pollLoopAux_success j0 42 0 (by omega) h41 (by omega)
  have hsk : start_kernel kernels env =
      { outcome := Except.ok env.artifact,
        kernels := dictInsert kernels env.artifact.key ⟨env.pid⟩,
        processAlive := true, killed := false } := by
    rw [start_kernel.eq_def, hpoll]
  have hins := dictInsert_fresh kernels env.artifact.key ⟨env.pid⟩ hfresh
  have hlook := dictLookup_append_self kernels env.artifact.key ⟨env.pid⟩ hfresh
  rw [hsk]
  refine ⟨rfl, hins, ?_, ?_⟩
  · show get_kernel_pid (dictInsert kernels env.artifact.key ⟨env.pid⟩)
      env.artifact.key = Except.ok env.pid
    rw [hins, get_kernel_pid.eq_def, hlook]
  · show list_kernels (dictInsert kernels env.artifact.key ⟨env.pid⟩) =
      list_kernels kernels ++ [env.artifact.key]
    rw [hins]
    simp [list_kernels]

/-- C6 witness: the success theorem applied to a concrete environment whose
artifact appears immediately with the fresh session key key1, against an
empty registry. -/
theorem c6_start_kernel_success_witness :
    (start_kernel [] ⟨42, some 0, ⟨"key1", []⟩, true⟩).outcome =
      Except.ok (⟨"key1", []⟩ : Artifact) ∧
    (start_kernel [] ⟨42, some 0, ⟨"key1", []⟩, true⟩).kernels =
      [("key1", ⟨42⟩)] ∧
    get_kernel_pid (start_kernel [] ⟨42, some 0, ⟨"key1", []⟩, true⟩).kernels
      "key1" = Except.ok 42 ∧
    list_kernels (start_kernel [] ⟨42, some 0, ⟨"key1", []⟩, true⟩).kernels =
      list_kernels ([] : KernelDict) ++ ["key1"] :=
  c6_start_kernel_success [] ⟨42, some 0, ⟨"key1", []⟩, true⟩ 0 rfl
    (by omega) rfl

/-- C7: stop_kernel on an absent key fails with the KeyNotFound error
(the KeyError of dict.pop) leaving the registry unchanged and touching no
process; on a present key it removes exactly that entry (the key no longer
resolves, every other key is untouched), performs terminate followed by a
join — run in an executor off the calling thread of control — and never
kill, and returns true exactly when the process is no longer alive after
the join. -/
theorem c7_stop_kernel (kernels : KernelDict) (k : String)
    (aliveAfterJoin : Bool) :
    (dictLookup kernels k = none →
      stop_kernel kernels k aliveAfterJoin =
        (Except.error KMError.keyNotFound, kernels, [])) ∧
    (∀ p, dictLookup kernels k = some p →
      stop_kernel kernels k aliveAfterJoin =
        (Except.ok (!aliveAfterJoin), dictPop kernels k,
         [StopAction.terminateProc p.pid, StopAction.joinProc p.pid]) ∧
      dictLookup (dictPop kernels k) k = none ∧
      (∀ k2, k2 ≠ k →
        dictLookup (dictPop kernels k) k2 = dictLookup kernels k2) ∧
      (∀ pid, StopAction.killProc pid ∉
        [StopAction.terminateProc p.pid, StopAction.joinProc p.pid]) ∧
      ((stop_kernel kernels k aliveAfterJoin).1 = Except.ok true ↔
        aliveAfterJoin = false)) := by
  constructor
  · intro hlook
    rw [stop_kernel.eq_def, hlook]
  · intro p hlook
    have hstop : stop_kernel kernels k aliveAfterJoin =
        (Except.ok (!aliveAfterJoin), dictPop kernels k,
         [StopAction.terminateProc p.pid, StopAction.joinProc p.pid]) := by
      rw [stop_kernel.eq_def, hlook]
    refine ⟨hstop, dictPop_lookup_self kernels k,
      fun k2 hk2 => dictPop_lookup_ne kernels k k2 hk2, ?_, ?_⟩
    · intro pid
      simp
    · rw [hstop]
      cases aliveAfterJoin <;> simp

/-- C7 witness: the stop theorem applied to a concrete one-entry registry,
once with an absent key and once with the present key whose process dies
after terminate and join. -/
theorem c7_stop_kernel_witness :
    stop_kernel [("a", ⟨5⟩)] "b" true =
      (Except.error KMError.keyNotFound, [("a", ⟨5⟩)], []) ∧
    stop_kernel [("a", ⟨5⟩)] "a" false =
      (Except.ok true, dictPop [("a", ⟨5⟩)] "a",
       [StopAction.terminateProc 5, StopAction.joinProc 5]) :=
  ⟨(c7_stop_kernel [("a", ⟨5⟩)] "b" true).1 rfl,
   ((c7_stop_kernel [("a", ⟨5⟩)] "a" false).2 ⟨5⟩ rfl).1⟩

theorem shadowPath_ne (path : String) : path ≠ shadowPath path := by
  intro hc
  have hlen := congrArg String.length hc
  rw [shadowPath, String.length_append] at hlen
  have hext : ".spyder.tmp".length = 11 := rfl
  omega

theorem atomicWrites_apply (path : String) :
    ∀ (chunks : List (List Nat)) (g : MutFs) (init : List Nat),
      g (shadowPath path) = some init →
      (∀ q, q ≠ shadowPath path →
        (chunks.foldl (fun acc c => atomicWrite acc path c) g) q = g q) ∧
      (chunks.foldl (fun acc c => atomicWrite acc path c) g) (shadowPath path) =
        some (init ++ chunks.flatten) := by
  intro chunks
  induction chunks with
  | nil =>
    intro g init hg
    exact ⟨fun q _ => rfl, by simpa using hg⟩
  | cons c cs ih =>
    intro g init hg
    have hg' : atomicWrite g path c (shadowPath path) = some (init ++ c) := by
      rw [atomicWrite]
      simp [hg]
    obtain ⟨ihother, ihshadow⟩ := ih (atomicWrite g path c) (init ++ c) hg'
    rw [List.foldl_cons]
    refine ⟨?_, ?_⟩
    · intro q hq
      rw [ihother q hq, atomicWrite, if_neg hq]
    · rw [ihshadow]
      simp

/-- C1 (spec-modelled: the FileSession component with its atomic mode is
described by the spec but absent from src, so the session semantics are
modelled from the spec text): for every atomic-mode write session, all
staged content goes to the shadow sibling path and the original file is
byte-for-byte unchanged while the session is open; an abnormal close
(connection killed mid-write) discards the shadow file and leaves the
original file byte-for-byte unchanged and every other path untouched —
nothing is ever partially committed; only a clean close replaces the real
path, with exactly the concatenation of the staged chunks. -/
theorem c1_atomic_session_integrity (fs : MutFs) (path : String)
    (chunks : List (List Nat)) :
    atomicSessionRun fs path chunks path = fs path ∧
    atomicCloseAbnormal (atomicSessionRun fs path chunks) path path = fs path ∧
    atomicCloseAbnormal (atomicSessionRun fs path chunks) path
      (shadowPath path) = none ∧
    (∀ q, q ≠ path → q ≠ shadowPath path →
      atomicCloseAbnormal (atomicSessionRun fs path chunks) path q = fs q) ∧
    atomicCloseClean (atomicSessionRun fs path chunks) path path =
      some chunks.flatten := by
  have hopen : atomicOpen fs path (shadowPath path) = some [] := by
    rw [atomicOpen, if_pos rfl]
  obtain ⟨hother, hshadow⟩ :=
    atomicWrites_apply path chunks (atomicOpen fs path) [] hopen
  have hrunpath : atomicSessionRun fs path chunks path = fs path := by
    rw [atomicSessionRun, hother path (shadowPath_ne path),
      atomicOpen, if_neg (shadowPath_ne path)]
  refine ⟨hrunpath, ?_, ?_, ?_, ?_⟩
  · rw [atomicCloseAbnormal, if_neg (shadowPath_ne path)]
    exact hrunpath
  · rw [atomicCloseAbnormal, if_pos rfl]
  · intro q hq1 hq2
    rw [atomicCloseAbnormal, if_neg hq2, atomicSessionRun, hother q hq2,
      atomicOpen, if_neg hq2]
  · rw [atomicCloseClean, if_pos rfl]
    show atomicSessionRun fs path chunks (shadowPath path) = some chunks.flatten
    rw [atomicSessionRun, hshadow]
    simp

/-- Inductive invariant of the two-thread instance race: at most one
construction ever happens (nextId counts them), the instance cell holds
exactly the one constructed object, a thread inside the locked re-check or
release owns the mutex, and a thread past the re-check can only observe
the constructed object. -/
def SingInv (s : SingState) : Prop :=
  s.nextId ≤ 1 ∧
  (s.nextId = 0 → s.instOb = none) ∧
  (s.nextId ≠ 0 → s.instOb = some 0) ∧
  ((s.pc1 = SingPc.checkSlow ∨ s.pc1 = SingPc.release) →
    s.lockOwner = some false) ∧
  ((s.pc2 = SingPc.checkSlow ∨ s.pc2 = SingPc.release) →
    s.lockOwner = some true) ∧
  (s.pc1 = SingPc.release → s.instOb = some 0) ∧
  (s.pc2 = SingPc.release → s.instOb = some 0) ∧
  (s.pc1 = SingPc.retInst → s.instOb = some 0) ∧
  (s.pc2 = SingPc.retInst → s.instOb = some 0) ∧
  (s.pc1 = SingPc.done → s.ret1 = some 0 ∧ s.instOb = some 0) ∧
  (s.pc2 = SingPc.done → s.ret2 = some 0 ∧ s.instOb = some 0)

theorem SingInv_step (s : SingState) (t : Bool) (h : SingInv s) :
    SingInv (singStep s t) := by
  obtain ⟨h1, h2, h3, h4, h5, h6, h7, h8, h9, h10, h11⟩ := h
  cases t
  · cases hpc : s.pc1
    case checkFast =>
      cases hio : s.instOb with
      | some v =>
        have hv : v = 0 := by
          by_cases hn : s.nextId = 0
          · rw [h2 hn] at hio
            exact absurd hio (by simp)
          · rw [h3 hn] at hio
            exact (Option.some.inj hio).symm
        subst hv
        simp_all [SingInv, singStep, SingState.pcOf, SingState.setPc,
          SingState.setRet, hpc, hio]
      | none =>
        simp_all [SingInv, singStep, SingState.pcOf, SingState.setPc,
          SingState.setRet, hpc, hio]
    case acquire =>
      cases hlo : s.lockOwner with
      | some w =>
        simp_all [SingInv, singStep, SingState.pcOf, SingState.setPc, hpc, hlo]
      | none =>
        have hp2s : ¬ (s.pc2 = SingPc.checkSlow ∨ s.pc2 = SingPc.release) := by
          intro hc
          rw [h5 hc] at hlo
          exact absurd hlo (by simp)
        simp_all [SingInv, singStep, SingState.pcOf, SingState.setPc, hpc, hlo]
    case checkSlow =>
      cases hio : s.instOb with
      | some v =>
        simp_all [SingInv, singStep, SingState.pcOf, SingState.setPc, hpc, hio]
      | none =>
        have hn0 : s.nextId = 0 := by
          by_contra hn
          rw [h3 hn] at hio
          exact absurd hio (by simp)
        simp_all [SingInv, singStep, SingState.pcOf, SingState.setPc, hpc, hio]
    case release =>
      have hlo := h4 (Or.inr hpc)
      have hp2s : ¬ (s.pc2 = SingPc.checkSlow ∨ s.pc2 = SingPc.release) := by
        intro hc
        rw [h5 hc] at hlo
        exact absurd hlo (by simp)
      simp_all [SingInv, singStep, SingState.pcOf, SingState.setPc, hpc]
    case retInst =>
      simp_all [SingInv, singStep, SingState.pcOf, SingState.setPc,
        SingState.setRet, hpc]
    case done =>
      simp_all [SingInv, singStep, SingState.pcOf, hpc]
  · cases hpc : s.pc2
    case checkFast =>
      cases hio : s.instOb with
      | some v =>
        have hv : v = 0 := by
          by_cases hn : s.nextId = 0
          · rw [h2 hn] at hio
            exact absurd hio (by simp)
          · rw [h3 hn] at hio
            exact (Option.some.inj hio).symm
        subst hv
        simp_all [SingInv, singStep, SingState.pcOf, SingState.setPc,
          SingState.setRet, hpc, hio]
      | none =>
        simp_all [SingInv, singStep, SingState.pcOf, SingState.setPc,
          SingState.setRet, hpc, hio]
    case acquire =>
      cases hlo : s.lockOwner with
      | some w =>
        simp_all [SingInv, singStep, SingState.pcOf, SingState.setPc, hpc, hlo]
      | none =>
        have hp1s : ¬ (s.pc1 = SingPc.checkSlow ∨ s.pc1 = SingPc.release) := by
          intro hc
          rw [h4 hc] at hlo
          exact absurd hlo (by simp)
        simp_all [SingInv, singStep, SingState.pcOf, SingState.setPc, hpc, hlo]
    case checkSlow =>
      cases hio : s.instOb with
      | some v =>
        simp_all [SingInv, singStep, SingState.pcOf, SingState.setPc, hpc, hio]
      | none =>
        have hn0 : s.nextId = 0 := by
          by_contra hn
          rw [h3 hn] at hio
          exact absurd hio (by simp)
        simp_all [SingInv, singStep, SingState.pcOf, SingState.setPc, hpc, hio]
    case release =>
      have hlo := h5 (Or.inr hpc)
      have hp1s : ¬ (s.pc1 = SingPc.checkSlow ∨ s.pc1 = SingPc.release) := by
        intro hc
        rw [h4 hc] at hlo
        exact absurd hlo (by simp)
      simp_all [SingInv, singStep, SingState.pcOf, SingState.setPc, hpc]
    case retInst =>
      simp_all [SingInv, singStep, SingState.pcOf, SingState.setPc,
        SingState.setRet, hpc]
    case done =>
      simp_all [SingInv, singStep, SingState.pcOf, hpc]

theorem singRun_inv : ∀ (sched : List Bool) (s : SingState),
    SingInv s → SingInv (singRun sched s) := by
  intro sched
  induction sched with
  | nil =>
    intro s hs
    exact hs
  | cons b rest ih =>
    intro s hs
    rw [singRun, List.foldl_cons]
    exact ih (singStep s b) (SingInv_step s b hs)

theorem singInit_inv : SingInv singInit := by
  refine ⟨by decide, fun _ => rfl, fun hn => absurd rfl hn, ?_, ?_, ?_, ?_, ?_,
    ?_, ?_, ?_⟩ <;> intro hc <;> simp [singInit] at hc

/-- C9: modelling two threads that concurrently run
KernelManager.instance for the first time — unlocked check, double-checked
re-check under the class mutex, construction, release, return of the
shared cell — under every interleaving in which both threads finish, both
calls return the same object, that object is the one stored process-wide,
and construction ran exactly once; and every attempt to construct an
instance directly, outside instance() (so with the inside-instance flag
down), fails with the InvalidState error, whether or not the singleton
already exists. -/
theorem c9_singleton_guard :
    (∀ sched : List Bool,
      (singRun sched singInit).pc1 = SingPc.done →
      (singRun sched singInit).pc2 = SingPc.done →
      (singRun sched singInit).ret1 = some 0 ∧
      (singRun sched singInit).ret2 = some 0 ∧
      (singRun sched singInit).instOb = some 0 ∧
      (singRun sched singInit).nextId = 1) ∧
    (∀ instanceExists : Bool,
      km_new instanceExists false = Except.error KMError.invalidState) := by
  constructor
  · intro sched hd1 hd2
    obtain ⟨h1, h2, h3, _, _, _, _, _, _, h10, h11⟩ :=
      singRun_inv sched singInit singInit_inv
    obtain ⟨hr1, hi⟩ := h10 hd1
    obtain ⟨hr2, _⟩ := h11 hd2
    have hn : (singRun sched singInit).nextId = 1 := by
      by_cases hz : (singRun sched singInit).nextId = 0
      · rw [h2 hz] at hi
        exact absurd hi (by simp)
      · omega
    exact ⟨hr1, hr2, hi, hn⟩
  · intro instanceExists
    cases instanceExists <;> rfl

/-- C9 witness: the guard theorem applied to the concrete schedule in
which thread one runs its five steps to completion and thread two then
takes the fast path. -/
theorem c9_singleton_guard_witness :
    (singRun [false, false, false, false, false, true] singInit).ret1 =
      some 0 ∧
    (singRun [false, false, false, false, false, true] singInit).ret2 =
      some 0 ∧
    (singRun [false, false, false, false, false, true] singInit).instOb =
      some 0 ∧
    (singRun [false, false, false, false, false, true] singInit).nextId = 1 :=
  c9_singleton_guard.1 [false, false, false, false, false, true]
    (by decide) (by decide)
